import Mathlib

/-!
Shallow embedding of the `rust-lnpbp` transport layer (`src/lnp/transport.rs`):
peer addressing (`NodeAddr` parsing and display) and outbound connection
establishment (`Connection::new` with its BOLT-8 handshake loop).

Strings are modelled as `List Char` (the `String` API wraps them); bytes as
`Nat` below 256 where relevant.  External collaborators that are not part of
the repository source (the `secp256k1` public-key codec, the
`InetAddr`/`InetSocketAddr` parsing and display from `common::internet`, the
default port constant, and the `lightning` crate's `PeerHandshake`) are
modelled from the specification's words, as marked in their doc comments; the
`PeerHandshake` machine is kept fully abstract.
-/

/-- Bytes on the wire: a list of octet values. -/
abbrev Bytes := List Nat

/-- Decimal digit test on characters (code points 48–57). -/
def isDigitChar (c : Char) : Bool := decide (48 ≤ c.toNat) && decide (c.toNat ≤ 57)

/-- Value of a decimal digit character. -/
def digitVal (c : Char) : Nat := c.toNat - 48

/-- Hexadecimal digit test (both cases accepted, as `secp256k1` hex parsing does). -/
def isHexDigitChar (c : Char) : Bool :=
  isDigitChar c || (decide (97 ≤ c.toNat) && decide (c.toNat ≤ 102))
    || (decide (65 ≤ c.toNat) && decide (c.toNat ≤ 70))

/-- Value of a hexadecimal digit character. -/
def hexVal (c : Char) : Nat :=
  if isDigitChar c then digitVal c
  else if decide (97 ≤ c.toNat) && decide (c.toNat ≤ 102) then c.toNat - 87
  else c.toNat - 55

/-- The decimal digit character for a value below ten. -/
def digitChar (v : Nat) : Char :=
  if v = 0 then '0' else if v = 1 then '1' else if v = 2 then '2'
  else if v = 3 then '3' else if v = 4 then '4' else if v = 5 then '5'
  else if v = 6 then '6' else if v = 7 then '7' else if v = 8 then '8' else '9'

/-- The lowercase hexadecimal digit character for a value below sixteen
(lowercase is what the `secp256k1` `Display` emits). -/
def hexChar (v : Nat) : Char :=
  if v < 10 then digitChar v
  else if v = 10 then 'a' else if v = 11 then 'b' else if v = 12 then 'c'
  else if v = 13 then 'd' else if v = 14 then 'e' else 'f'

/-- Rust's `str::split(c)`: splits a character list on every occurrence of
`c`, keeping empty fragments, and never returns an empty list of fragments. -/
def splitOnChar (c : Char) : List Char → List (List Char)
  | [] => [[]]
  | x :: xs =>
    if x = c then [] :: splitOnChar c xs
    else
      match splitOnChar c xs with
      | [] => [[x]]
      | g :: gs => (x :: g) :: gs

/-- Decimal rendering of a natural number, with explicit structural fuel so
that it evaluates by kernel reduction; `natToChars` supplies enough fuel. -/
def natToCharsAux : Nat → Nat → List Char
  | 0, _ => []
  | fuel + 1, n =>
    if n < 10 then [digitChar n]
    else natToCharsAux fuel (n / 10) ++ [digitChar (n % 10)]

/-- Decimal rendering of a natural number (Rust's `Display` for integers). -/
def natToChars (n : Nat) : List Char := natToCharsAux (n + 1) n

/-- Accumulated value of a list of decimal digit characters. -/
def digitsVal (cs : List Char) : Nat := cs.foldl (fun a c => 10 * a + digitVal c) 0

theorem splitOnChar_ne_nil (c : Char) (cs : List Char) : splitOnChar c cs ≠ [] := by
  induction cs with
  | nil => simp [splitOnChar]
  | cons x xs ih =>
    simp only [splitOnChar]
    split
    · simp
    · split
      · simp
      · simp

theorem splitOnChar_not_mem (c : Char) (cs : List Char) (h : c ∉ cs) :
    splitOnChar c cs = [cs] := by
  induction cs with
  | nil => rfl
  | cons x xs ih =>
    simp only [List.mem_cons, not_or] at h
    have hx : ¬x = c := fun e => h.1 e.symm
    simp only [splitOnChar, if_neg hx, ih h.2]

theorem splitOnChar_append (c : Char) (a b : List Char) (h : c ∉ a) :
    splitOnChar c (a ++ c :: b) = a :: splitOnChar c b := by
  induction a with
  | nil => simp [splitOnChar]
  | cons x xs ih =>
    simp only [List.mem_cons, not_or] at h
    have hx : ¬x = c := fun e => h.1 e.symm
    simp only [List.cons_append, splitOnChar, if_neg hx, List.append_eq, ih h.2]

theorem mem_splitOnChar_not_mem (c : Char) (cs : List Char) (g : List Char)
    (hg : g ∈ splitOnChar c cs) : c ∉ g := by
  induction cs generalizing g with
  | nil =>
    simp only [splitOnChar, List.mem_singleton] at hg
    subst hg; simp
  | cons x xs ih =>
    simp only [splitOnChar] at hg
    by_cases hx : x = c
    · rw [if_pos hx] at hg
      rcases List.mem_cons.1 hg with h | h
      · subst h; simp
      · exact ih g h
    · rw [if_neg hx] at hg
      rcases hsp : splitOnChar c xs with _ | ⟨g0, gs⟩
      · exact absurd hsp (splitOnChar_ne_nil c xs)
      · rw [hsp] at hg
        rcases List.mem_cons.1 hg with h | h
        · subst h
          intro hmem
          rcases List.mem_cons.1 hmem with h' | h'
          · exact hx h'.symm
          · exact ih g0 (hsp ▸ List.mem_cons_self g0 gs) h'
        · exact ih g (hsp ▸ List.mem_cons_of_mem g0 h)

theorem digitChar_isDigit (v : Nat) (h : v ≤ 9) : isDigitChar (digitChar v) = true := by
  interval_cases v <;> decide

theorem digitVal_digitChar (v : Nat) (h : v ≤ 9) : digitVal (digitChar v) = v := by
  interval_cases v <;> decide

theorem digitsVal_append_singleton (xs : List Char) (c : Char) :
    digitsVal (xs ++ [c]) = 10 * digitsVal xs + digitVal c := by
  simp [digitsVal, List.foldl_append]

theorem natToCharsAux_digits (fuel : Nat) : ∀ n, n < fuel →
    ∀ c ∈ natToCharsAux fuel n, isDigitChar c = true := by
  induction fuel with
  | zero => intro n hn; omega
  | succ fuel ih =>
    intro n hn c hc
    simp only [natToCharsAux] at hc
    by_cases h10 : n < 10
    · rw [if_pos h10] at hc
      simp only [List.mem_singleton] at hc
      subst hc; exact digitChar_isDigit n (by omega)
    · rw [if_neg h10] at hc
      rcases List.mem_append.1 hc with h | h
      · exact ih (n / 10) (by omega) c h
      · simp only [List.mem_singleton] at h
        subst h; exact digitChar_isDigit (n % 10) (by omega)

theorem natToCharsAux_val (fuel : Nat) : ∀ n, n < fuel →
    digitsVal (natToCharsAux fuel n) = n := by
  induction fuel with
  | zero => intro n hn; omega
  | succ fuel ih =>
    intro n hn
    simp only [natToCharsAux]
    by_cases h10 : n < 10
    · rw [if_pos h10]
      simp [digitsVal, digitVal_digitChar n (by omega)]
    · rw [if_neg h10]
      rw [digitsVal_append_singleton, ih (n / 10) (by omega),
        digitVal_digitChar (n % 10) (by omega)]
      omega

theorem natToCharsAux_ne_nil (fuel n : Nat) (h : n < fuel) :
    natToCharsAux fuel n ≠ [] := by
  cases fuel with
  | zero => omega
  | succ fuel =>
    simp only [natToCharsAux]
    split <;> simp

theorem natToCharsAux_length (fuel : Nat) : ∀ n k, n < fuel → 1 ≤ k → n < 10 ^ k →
    (natToCharsAux fuel n).length ≤ k := by
  induction fuel with
  | zero => intro n k hn; omega
  | succ fuel ih =>
    intro n k hn hk hpow
    simp only [natToCharsAux]
    by_cases h10 : n < 10
    · rw [if_pos h10]; simpa using hk
    · rw [if_neg h10]
      have hk2 : 2 ≤ k := by
        by_contra hlt
        have : k = 1 := by omega
        subst this
        simp at hpow
        omega
      have hdiv : n / 10 < 10 ^ (k - 1) := by
        have h1 : 10 ^ k = 10 ^ (k - 1) * 10 := by
          rw [← pow_succ]
          congr 1
          omega
        rw [Nat.div_lt_iff_lt_mul (by omega)]
        omega
      have := ih (n / 10) (k - 1) (by omega) (by omega) hdiv
      simp only [List.length_append, List.length_singleton]
      omega

theorem natToChars_digits (n : Nat) : ∀ c ∈ natToChars n, isDigitChar c = true :=
  natToCharsAux_digits (n + 1) n (Nat.lt_succ_self n)

theorem digitsVal_natToChars (n : Nat) : digitsVal (natToChars n) = n :=
  natToCharsAux_val (n + 1) n (Nat.lt_succ_self n)

theorem natToChars_ne_nil (n : Nat) : natToChars n ≠ [] :=
  natToCharsAux_ne_nil (n + 1) n (Nat.lt_succ_self n)

theorem natToChars_length (n k : Nat) (hk : 1 ≤ k) (h : n < 10 ^ k) :
    (natToChars n).length ≤ k :=
  natToCharsAux_length (n + 1) n k (Nat.lt_succ_self n) hk h

theorem isDigitChar_ne_at (c : Char) (h : isDigitChar c = true) :
    c ≠ '@' ∧ c ≠ ':' ∧ c ≠ '.' := by
  refine ⟨fun e => ?_, fun e => ?_, fun e => ?_⟩ <;> subst e <;> exact absurd h (by decide)

theorem isHexDigitChar_ne_at (c : Char) (h : isHexDigitChar c = true) :
    c ≠ '@' ∧ c ≠ ':' := by
  refine ⟨fun e => ?_, fun e => ?_⟩ <;> subst e <;> exact absurd h (by decide)

/-- Modelled from the spec / Rust std: decimal integer parsing as used by
`str::parse` on unsigned integers (digits only, no sign, leading zeros
allowed). -/
def parseDecimal (cs : List Char) : Option Nat :=
  if cs ≠ [] ∧ cs.all isDigitChar = true then some (digitsVal cs) else none

/-- Modelled from the spec: the port fragment "must be a valid 16-bit decimal
integer" (`port.parse::<u16>()` in the source: decimal digits whose value
fits in 16 bits). -/
def parseU16 (cs : List Char) : Option Nat :=
  match parseDecimal cs with
  | some v => if v < 65536 then some v else none
  | none => none

/-- Network location of a peer, `common::internet::InetAddr`.  Modelled from
the spec: a tagged union over IPv4, IPv6 and Tor-v3 onion addresses.  The
IPv4 variant stores the four octets, the IPv6 variant the literal text, the
Tor variant the 56 base32 characters of the onion name. -/
inductive InetAddr
  | ipv4 : Nat → Nat → Nat → Nat → InetAddr
  | ipv6 : List Char → InetAddr
  | tor : List Char → InetAddr
deriving DecidableEq, Repr

/-- `InetAddr::is_tor`: whether the location is a Tor-v3 onion address. -/
def InetAddr.is_tor : InetAddr → Bool
  | .tor _ => true
  | _ => false

/-- One dotted-decimal octet of an IPv4 literal: one to three decimal digits
with value at most 255. -/
def ipv4Group (cs : List Char) : Option Nat :=
  if cs ≠ [] ∧ cs.length ≤ 3 ∧ cs.all isDigitChar = true then
    if digitsVal cs ≤ 255 then some (digitsVal cs) else none
  else none

/-- Modelled from the spec: an IPv4 literal is four dotted-decimal octets. -/
def ipv4Parse (cs : List Char) : Option InetAddr :=
  match splitOnChar '.' cs with
  | [a, b, c, d] =>
    match ipv4Group a, ipv4Group b, ipv4Group c, ipv4Group d with
    | some x, some y, some z, some w => some (.ipv4 x y z w)
    | _, _, _, _ => none
  | _ => none

/-- One colon-separated group of an IPv6 literal: one to four hex digits. -/
def hexGroup (cs : List Char) : Bool :=
  decide (cs ≠ []) && decide (cs.length ≤ 4) && cs.all isHexDigitChar

/-- Splits a character list at the first occurrence of a double colon,
returning the text before and after it, or `none` when there is none. -/
def splitDoubleColon : List Char → Option (List Char × List Char)
  | [] => none
  | [_] => none
  | x :: y :: rest =>
    if x = ':' ∧ y = ':' then some ([], rest)
    else
      match splitDoubleColon (y :: rest) with
      | some (l, r) => some (x :: l, r)
      | none => none

/-- All colon-separated groups on one side of a `::` elision are valid hex
groups (an empty side is allowed). -/
def sideGroupsOK (cs : List Char) : Bool :=
  cs.isEmpty || (splitOnChar ':' cs).all hexGroup

/-- Number of groups on one side of a `::` elision. -/
def sideGroupCount (cs : List Char) : Nat :=
  if cs.isEmpty then 0 else (splitOnChar ':' cs).length

/-- Modelled from the spec: an IPv6 literal is eight colon-separated hex
groups, or at most seven groups around a single `::` elision. -/
def isIPv6Literal (cs : List Char) : Bool :=
  match splitDoubleColon cs with
  | none => decide ((splitOnChar ':' cs).length = 8) && (splitOnChar ':' cs).all hexGroup
  | some (l, r) =>
    match splitDoubleColon r with
    | some _ => false
    | none => sideGroupsOK l && sideGroupsOK r
        && decide (sideGroupCount l + sideGroupCount r ≤ 7)

/-- Base32 alphabet of Tor onion names: lowercase letters and digits 2–7. -/
def isBase32Char (c : Char) : Bool :=
  (decide (97 ≤ c.toNat) && decide (c.toNat ≤ 122))
    || (decide (50 ≤ c.toNat) && decide (c.toNat ≤ 55))

/-- The characters of the `.onion` suffix. -/
def onionSuffix : List Char := ['.', 'o', 'n', 'i', 'o', 'n']

/-- Modelled from the spec: a Tor-v3 onion literal is 56 base32 characters
followed by `.onion`; returns the 56-character onion name. -/
def torParse (cs : List Char) : Option (List Char) :=
  if cs.length = 62 ∧ cs.drop 56 = onionSuffix ∧ (cs.take 56).all isBase32Char = true
  then some (cs.take 56) else none

/-- Modelled from the spec: host parsing "tries, in order: IPv4 literal,
IPv6 literal, Tor-v3 onion literal" (`InetAddr::from_str`). -/
def InetAddr.parse (cs : List Char) : Option InetAddr :=
  match ipv4Parse cs with
  | some a => some a
  | none =>
    if isIPv6Literal cs then some (.ipv6 cs)
    else
      match torParse cs with
      | some t => some (.tor t)
      | none => none

/-- Modelled from the spec: textual form of a network location. -/
def InetAddr.display : InetAddr → List Char
  | .ipv4 a b c d =>
    natToChars a ++ ('.' :: (natToChars b ++ ('.' :: (natToChars c ++ ('.' :: natToChars d)))))
  | .ipv6 g => g
  | .tor t => t ++ onionSuffix

/-- `common::internet::InetSocketAddr`: a network location plus a port. -/
structure InetSocketAddr where
  address : InetAddr
  port : Nat
deriving DecidableEq, Repr

/-- Modelled from the spec: `InetSocketAddr` displays as `<host>:<port>`. -/
def InetSocketAddr.display (a : InetSocketAddr) : List Char :=
  a.address.display ++ ':' :: natToChars a.port

/-- Modelled from the spec: "a well-known default port for the protocol"
(the Lightning P2P port). -/
def LIGHTNING_P2P_DEFAULT_PORT : Nat := 9735

/-- Modelled from the spec: a node identity is a "66-hex-char compressed
pubkey"; we keep the 66 hex digit values.  (Curve membership of the encoded
point is beyond the embedding and is not modelled.) -/
structure PublicKey where
  nibbles : List Nat
deriving DecidableEq, Repr

/-- Hex parsing of a compressed public key (`secp256k1::PublicKey::from_str`
restricted to the spec's 66-hex-char compressed form, either case). -/
def pubkeyParse (cs : List Char) : Option PublicKey :=
  if cs.length = 66 ∧ cs.all isHexDigitChar = true then some ⟨cs.map hexVal⟩ else none

/-- `secp256k1::PublicKey` display: lowercase hex. -/
def PublicKey.display (pk : PublicKey) : List Char := pk.nibbles.map hexChar

/-- `NodeAddr`: a peer's identity plus its network location
(`src/lnp/transport.rs`, lines 50–54). -/
structure NodeAddr where
  node_id : PublicKey
  inet_addr : InetSocketAddr
deriving DecidableEq, Repr

/-- The error message of `NodeAddr::from_str` (the single `AddressFormatError`
text every malformed input is reported with). -/
def errMsg : String :=
  "Wrong LN peer id; it must be in format `<node_id>@<node_inet_addr>[:<port>]`, where <node_inet_addr> may be IPv4, IPv6 or TORv3 address"

/-- Tail of `NodeAddr::from_str` after the two splits: parses the public key,
then the host, in the source's evaluation order. -/
def NodeAddr.finishParse (id addr : List Char) (p : Nat) : Except String NodeAddr :=
  match pubkeyParse id with
  | some pk =>
    match InetAddr.parse addr with
    | some a => .ok ⟨pk, ⟨a, p⟩⟩
    | none => .error errMsg
  | none => .error errMsg

/-- `NodeAddr::from_str` (`src/lnp/transport.rs`, lines 74–98): split on `@`
into exactly two fragments, split the right fragment on `:` into host and
optional port, then parse port (if present), public key and host. -/
def NodeAddr.from_str (cs : List Char) : Except String NodeAddr :=
  match splitOnChar '@' cs with
  | [id, inet] =>
    match splitOnChar ':' inet with
    | [addr, port] =>
      match parseU16 port with
      | some p => NodeAddr.finishParse id addr p
      | none => .error errMsg
    | [addr] => NodeAddr.finishParse id addr LIGHTNING_P2P_DEFAULT_PORT
    | _ => .error errMsg
  | _ => .error errMsg

/-- `NodeAddr`'s `Display` (`src/lnp/transport.rs`, lines 65–69):
`{node_id}@{inet_addr}`. -/
def NodeAddr.display (na : NodeAddr) : List Char :=
  na.node_id.display ++ '@' :: na.inet_addr.display

/-- `NodeAddr::from_str` on a `String`. -/
def NodeAddr.fromString (s : String) : Except String NodeAddr :=
  NodeAddr.from_str s.data

deriving instance DecidableEq for Except

/-- `MAX_TRANSPORT_FRAME_SIZE` (`src/lnp/transport.rs`, line 48). -/
def MAX_TRANSPORT_FRAME_SIZE : Nat := 65569

/-- `ConnectionError` (`src/lnp/transport.rs`, lines 102–108).  The
`IoError` payload is not modelled: stream reads and writes are kept
infallible in this embedding. -/
inductive ConnectionError
  | torNotYetSupported
  | failedHandshake : String → ConnectionError
  | ioError
deriving DecidableEq, Repr

/-- Observable I/O and handshake actions of `Connection::new`, in program
order: opening the TCP stream, feeding a byte slice to
`PeerHandshake::process_act`, writing an Act's serialization to the stream
(`write_all`), and reading a chunk from the stream (`read_buf`). -/
inductive Event
  | connect : InetSocketAddr → Event
  | feed : Bytes → Event
  | write : Bytes → Event
  | read : Bytes → Event
deriving DecidableEq, Repr

/-- `true` exactly when the optional event is a stream write. -/
def isWriteEvent : Option Event → Bool
  | some (.write _) => true
  | _ => false

/-- `Connection` (`src/lnp/transport.rs`, lines 117–121), minus the TCP
stream, which is outside the embedding.  `ε` is the abstract transport
encryptor type (`lightning`'s `Conduit`). -/
structure Connection (ε : Type) where
  outbound : Bool
  encryptor : ε
deriving DecidableEq, Repr

/-- The error message `Connection::new` reports when `process_act` returns
neither an outgoing Act nor a completed encryptor. -/
def nonStdMsg : String := "PeerHandshake.process_act returned non-standard result"

/-- The handshake loop of `Connection::new` (`src/lnp/transport.rs`, lines
153–191).  `pa` is the abstract `PeerHandshake::process_act`: from a
handshake state and an input slice it yields an error, or an optional
outgoing Act (already serialized), an optional completed encryptor, and the
mutated state.  `reads` gives the chunk of bytes the `k`-th `read_buf` call
appends to `buf`; as in the source, the slice fed to the next `process_act`
is the first `read_len` bytes of the accumulated buffer, where `read_len` is
the size of the latest chunk.  The loop is run on structural fuel; `none`
means the fuel ran out before the loop finished, and every theorem below is
conditional on termination.  Alongside the result, the trace of observable
events is returned. -/
def handshakeLoop {σ ε : Type} (pa : σ → Bytes → Except String (Option Bytes × Option ε × σ))
    (reads : Nat → Bytes) :
    Nat → σ → Bytes → Bytes → Nat → Option (Except ConnectionError ε × List Event)
  | 0, _, _, _, _ => none
  | fuel + 1, st, input, buf, k =>
    match pa st input with
    | .error msg => some (.error (.failedHandshake msg), [.feed input])
    | .ok (act?, enc?, st') =>
      match enc? with
      | some e => some (.ok e, [.feed input])
      | none =>
        match act? with
        | some act =>
          let chunk := reads k
          let buf' := buf ++ chunk
          let input' := buf'.take chunk.length
          match handshakeLoop pa reads fuel st' input' buf' (k + 1) with
          | some (r, evs) => some (r, .feed input :: .write act :: .read chunk :: evs)
          | none => none
        | none => some (.error (.failedHandshake nonStdMsg), [.feed input])

/-- `Connection::new` (`src/lnp/transport.rs`, lines 124–202): reject Tor
locations before any I/O, open the stream, run the handshake loop starting
from an empty input slice, and on success return an outbound connection
holding the encryptor. -/
def Connection.new {σ ε : Type} (pa : σ → Bytes → Except String (Option Bytes × Option ε × σ))
    (node : NodeAddr) (reads : Nat → Bytes) (init : σ) (fuel : Nat) :
    Option (Except ConnectionError (Connection ε) × List Event) :=
  if node.inet_addr.address.is_tor then some (.error .torNotYetSupported, [])
  else
    match handshakeLoop pa reads fuel init [] [] 0 with
    | none => none
    | some (.error e, evs) => some (.error e, .connect node.inet_addr :: evs)
    | some (.ok enc, evs) => some (.ok ⟨true, enc⟩, .connect node.inet_addr :: evs)

/-- `NodeAddr::connect` (`src/lnp/transport.rs`, lines 57–62): delegates to
`Connection::new`. -/
def NodeAddr.connect {σ ε : Type} (node : NodeAddr)
    (pa : σ → Bytes → Except String (Option Bytes × Option ε × σ))
    (reads : Nat → Bytes) (init : σ) (fuel : Nat) :
    Option (Except ConnectionError (Connection ε) × List Event) :=
  Connection.new pa node reads init fuel

/-- Declarative characterization of one run of the handshake loop, relating
the trace of events and the result to the abstract `process_act` and the
stream chunks.  `fail`: a `process_act` error ends the run with
`FailedHandshake` carrying the reason, after the one `feed`.  `complete`: a
call returning a completed encryptor ends the run at once — an Act returned
by that same call is never written.  `nonstandard`: a call returning neither
an Act nor an encryptor ends the run with the fatal `nonStdMsg` error.
`step`: a call returning only an Act writes that Act verbatim, then reads
chunk `k`, and the next call is fed the first `read_len` bytes of the
accumulated buffer (`read_len` being the latest chunk's size). -/
inductive HandshakeRun {σ ε : Type}
    (pa : σ → Bytes → Except String (Option Bytes × Option ε × σ))
    (reads : Nat → Bytes) :
    σ → Bytes → Bytes → Nat → List Event → Except ConnectionError ε → Prop
  | fail : ∀ st input buf k msg,
      pa st input = .error msg →
      HandshakeRun pa reads st input buf k [.feed input]
        (.error (.failedHandshake msg))
  | complete : ∀ st input buf k act? e st',
      pa st input = .ok (act?, some e, st') →
      HandshakeRun pa reads st input buf k [.feed input] (.ok e)
  | nonstandard : ∀ st input buf k st',
      pa st input = .ok (none, none, st') →
      HandshakeRun pa reads st input buf k [.feed input]
        (.error (.failedHandshake nonStdMsg))
  | step : ∀ st input buf k act st' evs r,
      pa st input = .ok (some act, none, st') →
      HandshakeRun pa reads st' ((buf ++ reads k).take (reads k).length)
        (buf ++ reads k) (k + 1) evs r →
      HandshakeRun pa reads st input buf k
        (.feed input :: .write act :: .read (reads k) :: evs) r

theorem handshakeLoop_run {σ ε : Type}
    (pa : σ → Bytes → Except String (Option Bytes × Option ε × σ))
    (reads : Nat → Bytes) (fuel : Nat) :
    ∀ st input buf k r evs,
      handshakeLoop pa reads fuel st input buf k = some (r, evs) →
      HandshakeRun pa reads st input buf k evs r := by
  induction fuel with
  | zero => intro st input buf k r evs h; simp [handshakeLoop] at h
  | succ fuel ih =>
    intro st input buf k r evs h
    rcases hpa : pa st input with msg | ⟨act?, enc?, st'⟩
    · simp only [handshakeLoop, hpa, Option.some.injEq, Prod.mk.injEq] at h
      rw [← h.1, ← h.2]
      exact .fail st input buf k msg hpa
    · rcases enc? with _ | e
      · rcases act? with _ | act
        · simp only [handshakeLoop, hpa, Option.some.injEq, Prod.mk.injEq] at h
          rw [← h.1, ← h.2]
          exact .nonstandard st input buf k st' hpa
        · rcases hrec : handshakeLoop pa reads fuel st'
              ((buf ++ reads k).take (reads k).length) (buf ++ reads k) (k + 1) with
            _ | ⟨r', evs'⟩
          · simp only [handshakeLoop, hpa, hrec] at h
            exact absurd h (by simp)
          · simp only [handshakeLoop, hpa, hrec, Option.some.injEq, Prod.mk.injEq] at h
            rw [← h.1, ← h.2]
            exact .step st input buf k act st' evs' r' hpa
              (ih st' ((buf ++ reads k).take (reads k).length) (buf ++ reads k)
                (k + 1) r' evs' hrec)
      · simp only [handshakeLoop, hpa, Option.some.injEq, Prod.mk.injEq] at h
        rw [← h.1, ← h.2]
        exact .complete st input buf k act? e st' hpa

theorem handshakeRun_head {σ ε : Type}
    {pa : σ → Bytes → Except String (Option Bytes × Option ε × σ)}
    {reads : Nat → Bytes} {st : σ} {input buf : Bytes} {k : Nat}
    {evs : List Event} {r : Except ConnectionError ε}
    (h : HandshakeRun pa reads st input buf k evs r) :
    evs.head? = some (.feed input) := by
  cases h <;> rfl

theorem handshakeRun_read_after_write {σ ε : Type}
    {pa : σ → Bytes → Except String (Option Bytes × Option ε × σ)}
    {reads : Nat → Bytes} {st : σ} {input buf : Bytes} {k : Nat}
    {evs : List Event} {r : Except ConnectionError ε}
    (h : HandshakeRun pa reads st input buf k evs r) :
    ∀ i c, evs[i]? = some (.read c) → isWriteEvent evs[i - 1]? = true := by
  induction h with
  | fail st input buf k msg hpa =>
    intro i c hi
    match i, hi with
    | 0, hi => simp at hi
  | complete st input buf k act? e st' hpa =>
    intro i c hi
    match i, hi with
    | 0, hi => simp at hi
  | nonstandard st input buf k st' hpa =>
    intro i c hi
    match i, hi with
    | 0, hi => simp at hi
  | step st input buf k act st' evs r hpa hrun ih =>
    intro i c hi
    match i, hi with
    | 1, hi => simp at hi
    | 2, hi => rfl
    | j + 3, hi =>
      simp only [List.getElem?_cons_succ] at hi
      rcases j with _ | j'
      · have hhd := handshakeRun_head hrun
        rcases evs with _ | ⟨e0, rest⟩
        · simp at hi
        · simp only [List.head?_cons, Option.some.injEq] at hhd
          simp only [List.getElem?_cons_zero, Option.some.injEq] at hi
          rw [hhd] at hi
          simp at hi
      · have h2 := ih (j' + 1) c hi
        simpa using h2

/-- C8: the transport's maximum frame-size constant equals the maximum total
byte size of a steady-state frame implied by the wire format: 2 (encrypted
length) + 16 (length tag) + 65535 (maximum encrypted payload) + 16 (payload
tag) = 65569. -/
theorem c8_max_transport_frame_size :
    MAX_TRANSPORT_FRAME_SIZE = 2 + 16 + 65535 + 16 := rfl

/-- C2: for every `NodeAddr` whose network location is a Tor-v3 onion
address, `Connection::new` (and `NodeAddr::connect`) returns
`TorNotYetSupported` before performing any I/O: the event trace is empty, so
no TCP connect is attempted and no bytes are written or read. -/
theorem c2_tor_rejected_before_io {σ ε : Type}
    (pa : σ → Bytes → Except String (Option Bytes × Option ε × σ))
    (node : NodeAddr) (reads : Nat → Bytes) (init : σ) (fuel : Nat)
    (htor : node.inet_addr.address.is_tor = true) :
    Connection.new pa node reads init fuel
      = some (.error .torNotYetSupported, ([] : List Event))
    ∧ node.connect pa reads init fuel
      = some (.error .torNotYetSupported, ([] : List Event)) := by
  constructor <;> simp [Connection.new, NodeAddr.connect, htor]

/-- Concrete handshake machine that completes immediately. -/
def paDone : Unit → Bytes → Except String (Option Bytes × Option Unit × Unit) :=
  fun _ _ => .ok (none, some (), ())

/-- Concrete stream: every read returns the single byte 7. -/
def readsW : Nat → Bytes := fun _ => [7]

/-- A Tor-v3 peer address. -/
def nodeTor : NodeAddr := ⟨⟨List.replicate 66 2⟩, ⟨.tor (List.replicate 56 'p'), 9735⟩⟩

/-- An IPv4 peer address. -/
def nodeOkW : NodeAddr := ⟨⟨List.replicate 66 3⟩, ⟨.ipv4 127 0 0 1, 9735⟩⟩

theorem c2_tor_rejected_before_io_witness :
    nodeTor.inet_addr.address.is_tor = true
    ∧ Connection.new paDone nodeTor readsW () 1
      = some (.error .torNotYetSupported, ([] : List Event)) :=
  ⟨rfl, (c2_tor_rejected_before_io paDone nodeTor readsW () 1 rfl).1⟩

/-- C3: if at any handshake step `process_act` returns neither an outgoing
Act nor a completed encryptor, the loop stops at once with
`FailedHandshake` (carrying `nonStdMsg`) — the trace shows no further
`process_act` call, write or read — and `Connection::new` as a whole
returns the same error rather than a connection. -/
theorem c3_nonstandard_result_fatal {σ ε : Type}
    (pa : σ → Bytes → Except String (Option Bytes × Option ε × σ))
    (node : NodeAddr) (reads : Nat → Bytes) (st init : σ) (input buf : Bytes)
    (k fuel : Nat) (st' st0 : σ)
    (h : pa st input = .ok (none, none, st'))
    (h0 : pa init [] = .ok (none, none, st0))
    (htor : node.inet_addr.address.is_tor = false) :
    handshakeLoop pa reads (fuel + 1) st input buf k
      = some (.error (.failedHandshake nonStdMsg), [.feed input])
    ∧ Connection.new pa node reads init (fuel + 1)
      = some (.error (.failedHandshake nonStdMsg),
          [.connect node.inet_addr, .feed []]) := by
  constructor
  · simp [handshakeLoop, h]
  · simp [Connection.new, handshakeLoop, h0, htor]

/-- Concrete handshake machine that returns neither Act nor encryptor. -/
def paNonStd : Unit → Bytes → Except String (Option Bytes × Option Unit × Unit) :=
  fun _ _ => .ok (none, none, ())

theorem c3_nonstandard_result_fatal_witness :
    paNonStd () [] = .ok (none, none, ())
    ∧ Connection.new paNonStd nodeOkW readsW () 1
      = some (.error (.failedHandshake nonStdMsg),
          [.connect nodeOkW.inet_addr, .feed []]) :=
  ⟨rfl, (c3_nonstandard_result_fatal paNonStd nodeOkW readsW () () [] [] 0 0 () ()
    rfl rfl rfl).2⟩

/-- C7: a `process_act` error at any handshake step is fatal: the loop stops
at once with `FailedHandshake` carrying the failure reason — the trace shows
no further `process_act` call (no automatic retry) — and `Connection::new`
returns that error, producing no `Connection` value. -/
theorem c7_process_act_error_fatal {σ ε : Type}
    (pa : σ → Bytes → Except String (Option Bytes × Option ε × σ))
    (node : NodeAddr) (reads : Nat → Bytes) (st init : σ) (input buf : Bytes)
    (k fuel : Nat) (msg msg0 : String)
    (h : pa st input = .error msg)
    (h0 : pa init [] = .error msg0)
    (htor : node.inet_addr.address.is_tor = false) :
    handshakeLoop pa reads (fuel + 1) st input buf k
      = some (.error (.failedHandshake msg), [.feed input])
    ∧ Connection.new pa node reads init (fuel + 1)
      = some (.error (.failedHandshake msg0),
          [.connect node.inet_addr, .feed []]) := by
  constructor
  · simp [handshakeLoop, h]
  · simp [Connection.new, handshakeLoop, h0, htor]

/-- Concrete handshake machine whose `process_act` always fails. -/
def paFail : Unit → Bytes → Except String (Option Bytes × Option Unit × Unit) :=
  fun _ _ => .error "act two has unexpected length"

theorem c7_process_act_error_fatal_witness :
    paFail () [] = .error "act two has unexpected length"
    ∧ Connection.new paFail nodeOkW readsW () 1
      = some (.error (.failedHandshake "act two has unexpected length"),
          [.connect nodeOkW.inet_addr, .feed []]) :=
  ⟨rfl, (c7_process_act_error_fatal paFail nodeOkW readsW () () [] [] 0 0 _ _
    rfl rfl rfl).2⟩

/-- C9: every `Connection` value produced by `Connection::new` has its
`outbound` field equal to `true` (only initiator-side connections are
constructed), and `NodeAddr::connect` is a plain delegation to
`Connection::new`, so the same holds for it. -/
theorem c9_outbound_always_true {σ ε : Type}
    (pa : σ → Bytes → Except String (Option Bytes × Option ε × σ))
    (node : NodeAddr) (reads : Nat → Bytes) (init : σ) (fuel : Nat)
    (conn : Connection ε) (evs : List Event)
    (h : Connection.new pa node reads init fuel = some (.ok conn, evs)) :
    conn.outbound = true
    ∧ node.connect pa reads init fuel = Connection.new pa node reads init fuel := by
  refine ⟨?_, rfl⟩
  unfold Connection.new at h
  split at h
  · simp at h
  · rcases hloop : handshakeLoop pa reads fuel init [] [] 0 with _ | ⟨r0, evs0⟩
    · rw [hloop] at h; simp at h
    · rw [hloop] at h
      rcases r0 with e0 | enc0
      · simp at h
      · simp only [Option.some.injEq, Prod.mk.injEq, Except.ok.injEq] at h
        rw [← h.1]

theorem c9_outbound_always_true_witness :
    Connection.new paDone nodeOkW readsW () 1
      = some (.ok ⟨true, ()⟩, [.connect nodeOkW.inet_addr, .feed []])
    ∧ (Connection.mk true () : Connection Unit).outbound = true :=
  ⟨rfl, (c9_outbound_always_true paDone nodeOkW readsW () 1 ⟨true, ()⟩
    [.connect nodeOkW.inet_addr, .feed []] rfl).1⟩

/-- C10: on the initiator side, for every terminating run of
`Connection::new` the trace opens with the TCP connect followed by a
`process_act` call fed the empty byte string, and every stream read is
immediately preceded by the write of the Act emitted at the preceding step —
so the first Act is written before any bytes are read, and each subsequent
read occurs only after the preceding Act has been fully written. -/
theorem c10_feed_empty_then_write_before_read {σ ε : Type}
    (pa : σ → Bytes → Except String (Option Bytes × Option ε × σ))
    (node : NodeAddr) (reads : Nat → Bytes) (init : σ) (fuel : Nat)
    (r : Except ConnectionError (Connection ε)) (evs : List Event)
    (htor : node.inet_addr.address.is_tor = false)
    (h : Connection.new pa node reads init fuel = some (r, evs)) :
    evs[0]? = some (.connect node.inet_addr)
    ∧ evs[1]? = some (.feed [])
    ∧ ∀ i c, evs[i]? = some (.read c) → isWriteEvent evs[i - 1]? = true := by
  have hneg : ¬node.inet_addr.address.is_tor = true := by rw [htor]; simp
  unfold Connection.new at h
  rw [if_neg hneg] at h
  rcases hloop : handshakeLoop pa reads fuel init [] [] 0 with _ | ⟨r0, evs0⟩
  · rw [hloop] at h; simp at h
  · rw [hloop] at h
    have hrun := handshakeLoop_run pa reads fuel init [] [] 0 r0 evs0 hloop
    have hevs : evs = .connect node.inet_addr :: evs0 := by
      rcases r0 with e0 | enc0 <;>
        simp only [Option.some.injEq, Prod.mk.injEq] at h <;> exact h.2.symm
    subst hevs
    have hhd := handshakeRun_head hrun
    refine ⟨by simp, ?_, ?_⟩
    · rw [List.getElem?_cons_succ, ← List.head?_eq_getElem?]
      exact hhd
    · intro i c hi
      match i, hi with
      | 0, hi => simp at hi
      | j + 1, hi =>
        simp only [List.getElem?_cons_succ] at hi
        rcases j with _ | j'
        · rcases evs0 with _ | ⟨e0, rest⟩
          · simp at hi
          · simp only [List.head?_cons, Option.some.injEq] at hhd
            simp only [List.getElem?_cons_zero, Option.some.injEq] at hi
            rw [hhd] at hi
            simp at hi
        · have h2 := handshakeRun_read_after_write hrun (j' + 1) c hi
          simpa using h2

/-- Concrete two-step handshake machine: one Act, then completion. -/
def paW : Nat → Bytes → Except String (Option Bytes × Option Unit × Nat) :=
  fun st _ => if st = 0 then .ok (some [1], none, 1) else .ok (none, some (), 2)

/-- The trace of `Connection.new paW nodeOkW readsW 0 3`. -/
def evsW : List Event :=
  [.connect nodeOkW.inet_addr, .feed [], .write [1], .read [7], .feed [7]]

theorem c10_feed_empty_then_write_before_read_witness :
    evsW[1]? = some (.feed []) ∧ isWriteEvent evsW[2]? = true := by
  have h := c10_feed_empty_then_write_before_read paW nodeOkW readsW 0 3
    (.ok ⟨true, ()⟩) evsW rfl rfl
  exact ⟨h.2.1, h.2.2 3 [7] rfl⟩

/-- Three-step handshake machine: two Acts, then a final step that returns
an Act together with the completed encryptor (as the `lightning` initiator
does when processing Act 2: it hands back Act 3 and the conduit at once). -/
def paC : Nat → Bytes → Except String (Option Bytes × Option Unit × Nat) :=
  fun st _ =>
    if st = 0 then .ok (some [10], none, 1)
    else if st = 1 then .ok (some [20], none, 2)
    else .ok (some [30], some (), 3)

/-- Stream chunks for the `paC` run: first read returns one byte, second two. -/
def readsC : Nat → Bytes := fun k => if k = 0 then [1] else [2, 3]

/-- An IPv4 peer address for the `paC` run. -/
def nodeC : NodeAddr := ⟨⟨List.replicate 66 2⟩, ⟨.ipv4 10 0 0 1, 9735⟩⟩

/-- The trace of `Connection.new paC nodeC readsC 0 5`. -/
def evsC : List Event :=
  [.connect nodeC.inet_addr, .feed [], .write [10], .read [1],
   .feed [1], .write [20], .read [2, 3], .feed [1, 2]]

/-- C1, counterexample: the claim fails on the code in both conjuncts, shown
on one concrete run of `Connection.new`.  (1) The final `process_act` call
emits Act `[30]` alongside the completed encryptor, completion is reported
(`.ok`), yet no write of `[30]` appears in the trace: the source checks the
encryptor before the Act and `break`s without writing it.  (2) The bytes
read from the stream since the previous `process_act` call are `[2, 3]`,
but the slice fed to the final call is `[1, 2]`: `read_buf` appends to the
accumulated buffer `buf` while the source takes `&buf[0..read_len]`, the
first `read_len` bytes of the whole buffer.  No `feed [2, 3]` event occurs. -/
theorem c1_counterexample :
    Connection.new paC nodeC readsC 0 5 = some (.ok ⟨true, ()⟩, evsC)
    ∧ paC 2 [1, 2] = .ok (some [30], some (), 3)
    ∧ Event.write [30] ∉ evsC
    ∧ Event.read [2, 3] ∈ evsC
    ∧ Event.feed [2, 3] ∉ evsC
    ∧ Event.feed [1, 2] ∈ evsC := by
  refine ⟨rfl, rfl, ?_, ?_, ?_, ?_⟩ <;> decide

/-- C1 (amended): every terminating run of the handshake loop of
`Connection::new` is characterized by `HandshakeRun`: every Act emitted by a
`process_act` call that returns no encryptor is written verbatim to the
stream before the next read; when a call returns a completed encryptor,
completion is reported immediately and an Act returned by that same call is
not written; a call returning neither is a fatal handshake error.  The first
`process_act` call is fed the empty byte slice, and each subsequent call is
fed the first `read_len` bytes of the accumulated read buffer (`read_len`
being the size of the latest chunk) — which coincides with "the raw bytes
read since the previous call" only for the first read. -/
theorem c1_handshake_loop_refines_run {σ ε : Type}
    (pa : σ → Bytes → Except String (Option Bytes × Option ε × σ))
    (reads : Nat → Bytes) (fuel : Nat) (st : σ) (input buf : Bytes) (k : Nat)
    (r : Except ConnectionError ε) (evs : List Event)
    (h : handshakeLoop pa reads fuel st input buf k = some (r, evs)) :
    HandshakeRun pa reads st input buf k evs r :=
  handshakeLoop_run pa reads fuel st input buf k r evs h

theorem c1_handshake_loop_refines_run_witness :
    HandshakeRun paC readsC 0 [] [] 0
      [.feed [], .write [10], .read [1], .feed [1], .write [20],
       .read [2, 3], .feed [1, 2]] (.ok ()) :=
  c1_handshake_loop_refines_run paC readsC 5 0 [] [] 0 (.ok ())
    [.feed [], .write [10], .read [1], .feed [1], .write [20],
     .read [2, 3], .feed [1, 2]] rfl

theorem parseU16_natToChars (n : Nat) (h : n < 65536) :
    parseU16 (natToChars n) = some n := by
  have hne := natToChars_ne_nil n
  have hall : (natToChars n).all isDigitChar = true :=
    List.all_eq_true.2 (fun c hc => natToChars_digits n c hc)
  simp only [parseU16, parseDecimal, if_pos (And.intro hne hall),
    digitsVal_natToChars, if_pos h]

theorem parseU16_lt (cs : List Char) (p : Nat) (h : parseU16 cs = some p) :
    p < 65536 := by
  simp only [parseU16, parseDecimal] at h
  split at h
  · split at h
    · simp only [Option.some.injEq] at h
      omega
    · simp at h
  · simp at h

theorem ipv4Group_natToChars (n : Nat) (h : n ≤ 255) :
    ipv4Group (natToChars n) = some n := by
  have hne := natToChars_ne_nil n
  have hall : (natToChars n).all isDigitChar = true :=
    List.all_eq_true.2 (fun c hc => natToChars_digits n c hc)
  have hlen : (natToChars n).length ≤ 3 := by
    refine natToChars_length n 3 (by omega) ?_
    have : (10 : Nat) ^ 3 = 1000 := by norm_num
    omega
  simp only [ipv4Group, if_pos (And.intro hne (And.intro hlen hall)),
    digitsVal_natToChars, if_pos h]

theorem ipv4Group_le (cs : List Char) (n : Nat) (h : ipv4Group cs = some n) :
    n ≤ 255 := by
  simp only [ipv4Group] at h
  split at h
  · split at h
    · simp only [Option.some.injEq] at h
      omega
    · simp at h
  · simp at h

theorem natToChars_not_mem_at (n : Nat) :
    '@' ∉ natToChars n ∧ ':' ∉ natToChars n ∧ '.' ∉ natToChars n := by
  refine ⟨fun hm => ?_, fun hm => ?_, fun hm => ?_⟩ <;>
    exact absurd (natToChars_digits n _ hm) (by decide)

theorem hexVal_lt_16 (c : Char) (h : isHexDigitChar c = true) : hexVal c < 16 := by
  simp only [isHexDigitChar, isDigitChar, Bool.or_eq_true, Bool.and_eq_true,
    decide_eq_true_eq] at h
  simp only [hexVal, isDigitChar, digitVal]
  split_ifs with h1 h2
  · simp only [Bool.and_eq_true, decide_eq_true_eq] at h1
    omega
  · simp only [Bool.and_eq_true, decide_eq_true_eq] at h2
    omega
  · simp only [Bool.and_eq_true, decide_eq_true_eq, not_and, not_le] at h1 h2
    rcases h with (h | h) | h <;> omega

theorem hexChar_isHex (v : Nat) (h : v < 16) : isHexDigitChar (hexChar v) = true := by
  interval_cases v <;> decide

theorem hexVal_hexChar (v : Nat) (h : v < 16) : hexVal (hexChar v) = v := by
  interval_cases v <;> decide

theorem hexChar_ne_at (v : Nat) (h : v < 16) : hexChar v ≠ '@' := by
  interval_cases v <;> decide

theorem pubkeyParse_display (cs : List Char) (pk : PublicKey)
    (h : pubkeyParse cs = some pk) :
    pubkeyParse pk.display = some pk ∧ '@' ∉ pk.display := by
  simp only [pubkeyParse] at h
  split_ifs at h with hc
  · simp only [Option.some.injEq] at h
    have hnib : ∀ v ∈ pk.nibbles, v < 16 := by
      rw [← h]
      intro v hv
      rcases List.mem_map.1 hv with ⟨c, hcmem, hce⟩
      rw [← hce]
      exact hexVal_lt_16 c (List.all_eq_true.1 hc.2 c hcmem)
    have hlen : pk.display.length = 66 := by
      simp only [PublicKey.display, List.length_map, ← h, hc.1]
    have hall : pk.display.all isHexDigitChar = true := by
      refine List.all_eq_true.2 (fun c hcm => ?_)
      rcases List.mem_map.1 hcm with ⟨v, hv, hve⟩
      rw [← hve]
      exact hexChar_isHex v (hnib v hv)
    refine ⟨?_, ?_⟩
    · simp only [pubkeyParse, if_pos (And.intro hlen hall), Option.some.injEq]
      have : pk.display.map hexVal = pk.nibbles := by
        simp only [PublicKey.display, List.map_map]
        calc pk.nibbles.map (hexVal ∘ hexChar) = pk.nibbles.map id := by
              refine List.map_congr_left (fun v hv => ?_)
              exact hexVal_hexChar v (hnib v hv)
          _ = pk.nibbles := List.map_id pk.nibbles
      rcases pk with ⟨nibs⟩
      simp only [this]
    · intro hm
      rcases List.mem_map.1 hm with ⟨v, hv, hve⟩
      exact hexChar_ne_at v (hnib v hv) hve

theorem isBase32Char_ne_at (c : Char) (h : isBase32Char c = true) :
    c ≠ '@' ∧ c ≠ ':' ∧ c ≠ '.' := by
  refine ⟨fun e => ?_, fun e => ?_, fun e => ?_⟩ <;> subst e <;> exact absurd h (by decide)

theorem ipv4Parse_inv (cs : List Char) (a : InetAddr) (h : ipv4Parse cs = some a) :
    ∃ x y z w, a = .ipv4 x y z w ∧ x ≤ 255 ∧ y ≤ 255 ∧ z ≤ 255 ∧ w ≤ 255 := by
  unfold ipv4Parse at h
  rcases hsp : splitOnChar '.' cs with _ | ⟨g1, _ | ⟨g2, _ | ⟨g3, _ | ⟨g4, _ | ⟨g5, gs⟩⟩⟩⟩⟩ <;>
    rw [hsp] at h <;> try simp at h
  rcases hg1 : ipv4Group g1 with _ | x <;> rcases hg2 : ipv4Group g2 with _ | y <;>
    rcases hg3 : ipv4Group g3 with _ | z <;> rcases hg4 : ipv4Group g4 with _ | w <;>
    simp only [hg1, hg2, hg3, hg4] at h <;> simp at h
  subst h
  exact ⟨x, y, z, w, rfl, ipv4Group_le g1 x hg1, ipv4Group_le g2 y hg2,
    ipv4Group_le g3 z hg3, ipv4Group_le g4 w hg4⟩

theorem ipv4_display_split (x y z w : Nat) :
    splitOnChar '.' (InetAddr.display (.ipv4 x y z w))
      = [natToChars x, natToChars y, natToChars z, natToChars w] := by
  simp only [InetAddr.display]
  rw [splitOnChar_append '.' _ _ (natToChars_not_mem_at x).2.2,
    splitOnChar_append '.' _ _ (natToChars_not_mem_at y).2.2,
    splitOnChar_append '.' _ _ (natToChars_not_mem_at z).2.2,
    splitOnChar_not_mem '.' _ (natToChars_not_mem_at w).2.2]

theorem ipv4_display_parse (x y z w : Nat)
    (hx : x ≤ 255) (hy : y ≤ 255) (hz : z ≤ 255) (hw : w ≤ 255) :
    InetAddr.parse (InetAddr.display (.ipv4 x y z w)) = some (.ipv4 x y z w) := by
  have h4 : ipv4Parse (InetAddr.display (.ipv4 x y z w)) = some (.ipv4 x y z w) := by
    unfold ipv4Parse
    rw [ipv4_display_split x y z w]
    simp [ipv4Group_natToChars x hx, ipv4Group_natToChars y hy,
      ipv4Group_natToChars z hz, ipv4Group_natToChars w hw]
  unfold InetAddr.parse
  rw [h4]

theorem ipv4_display_not_mem (x y z w : Nat) :
    '@' ∉ InetAddr.display (.ipv4 x y z w) ∧ ':' ∉ InetAddr.display (.ipv4 x y z w) := by
  constructor <;> intro hm <;>
    simp only [InetAddr.display, List.mem_append, List.mem_cons] at hm <;>
    rcases hm with h | h | h | h | h | h | h <;>
    first
      | exact (natToChars_not_mem_at _).1 h
      | exact (natToChars_not_mem_at _).2.1 h
      | simp at h

theorem torParse_inv (cs t : List Char) (h : torParse cs = some t) :
    t.length = 56 ∧ ∀ c ∈ t, isBase32Char c = true := by
  simp only [torParse] at h
  split_ifs at h with hc
  simp only [Option.some.injEq] at h
  subst h
  refine ⟨?_, fun c hcm => List.all_eq_true.1 hc.2.2 c hcm⟩
  simp only [List.length_take]
  omega

theorem splitDoubleColon_none (cs : List Char) (h : ':' ∉ cs) :
    splitDoubleColon cs = none := by
  induction cs with
  | nil => rfl
  | cons x xs ih =>
    cases xs with
    | nil => rfl
    | cons y rest =>
      simp only [List.mem_cons, not_or] at h
      have hx : ¬(x = ':' ∧ y = ':') := fun he => h.1 he.1.symm
      have hih : splitDoubleColon (y :: rest) = none := by
        refine ih (fun hm => ?_)
        rcases List.mem_cons.1 hm with e | e
        · exact h.2.1 e
        · exact h.2.2 e
      simp only [splitDoubleColon, if_neg hx, hih]

theorem isIPv6Literal_no_colon (cs : List Char) (h : ':' ∉ cs) :
    isIPv6Literal cs = false := by
  simp only [isIPv6Literal, splitDoubleColon_none cs h, splitOnChar_not_mem ':' cs h]
  simp

theorem tor_display_parse (t : List Char) (hlen : t.length = 56)
    (hall : ∀ c ∈ t, isBase32Char c = true) :
    InetAddr.parse (InetAddr.display (.tor t)) = some (.tor t) := by
  have hdot : '.' ∉ t := fun hm => (isBase32Char_ne_at _ (hall _ hm)).2.2 rfl
  have hcol : ':' ∉ t ++ onionSuffix := by
    intro hm
    rcases List.mem_append.1 hm with hmem | hmem
    · exact (isBase32Char_ne_at _ (hall _ hmem)).2.1 rfl
    · exact absurd hmem (by decide)
  have h4 : ipv4Parse (t ++ onionSuffix) = none := by
    have hs : splitOnChar '.' (t ++ onionSuffix) = [t, ['o', 'n', 'i', 'o', 'n']] := by
      show splitOnChar '.' (t ++ '.' :: ['o', 'n', 'i', 'o', 'n']) = _
      rw [splitOnChar_append '.' t _ hdot, splitOnChar_not_mem '.' _ (by decide)]
    unfold ipv4Parse
    rw [hs]
  have htp : torParse (t ++ onionSuffix) = some t := by
    have h1 : (t ++ onionSuffix).length = 62 := by
      simp only [List.length_append, hlen]
      rfl
    have h2 : (t ++ onionSuffix).drop 56 = onionSuffix := by
      rw [← hlen]
      exact List.drop_left t onionSuffix
    have h3 : (t ++ onionSuffix).take 56 = t := by
      rw [← hlen]
      exact List.take_left t onionSuffix
    rw [torParse, if_pos ⟨h1, h2, by rw [h3]; exact List.all_eq_true.2 hall⟩, h3]
  show InetAddr.parse (t ++ onionSuffix) = some (.tor t)
  unfold InetAddr.parse
  rw [h4, isIPv6Literal_no_colon _ hcol, htp]
  simp

theorem tor_display_not_mem (t : List Char) (hall : ∀ c ∈ t, isBase32Char c = true) :
    '@' ∉ InetAddr.display (.tor t) ∧ ':' ∉ InetAddr.display (.tor t) := by
  constructor <;> intro hm <;>
    rcases List.mem_append.1 hm with hmem | hmem
  · exact (isBase32Char_ne_at _ (hall _ hmem)).1 rfl
  · exact absurd hmem (by decide)
  · exact (isBase32Char_ne_at _ (hall _ hmem)).2.1 rfl
  · exact absurd hmem (by decide)

theorem inetAddr_parse_display (addr : List Char) (a : InetAddr)
    (hcol : ':' ∉ addr) (h : InetAddr.parse addr = some a) :
    InetAddr.parse a.display = some a ∧ '@' ∉ a.display ∧ ':' ∉ a.display := by
  unfold InetAddr.parse at h
  rcases h4 : ipv4Parse addr with _ | a4
  · rw [h4, isIPv6Literal_no_colon addr hcol] at h
    simp only [Bool.false_eq_true, if_false] at h
    rcases ht : torParse addr with _ | t <;> rw [ht] at h
    · simp at h
    · simp only [Option.some.injEq] at h
      rcases torParse_inv addr t ht with ⟨hlen, hall⟩
      rw [← h]
      exact ⟨tor_display_parse t hlen hall, tor_display_not_mem t hall⟩
  · rw [h4] at h
    simp only [Option.some.injEq] at h
    rcases ipv4Parse_inv addr a4 h4 with ⟨x, y, z, w, he, hx, hy, hz, hw⟩
    rw [← h, he]
    exact ⟨ipv4_display_parse x y z w hx hy hz hw, ipv4_display_not_mem x y z w⟩

theorem finishParse_roundtrip (idf addr : List Char) (p : Nat) (na : NodeAddr)
    (hcol : ':' ∉ addr) (hp : p < 65536)
    (h : NodeAddr.finishParse idf addr p = .ok na) :
    NodeAddr.from_str na.display = .ok na := by
  unfold NodeAddr.finishParse at h
  rcases hpk : pubkeyParse idf with _ | pk <;> rw [hpk] at h <;> try simp at h
  rcases hip : InetAddr.parse addr with _ | a <;> rw [hip] at h <;> try simp at h
  obtain ⟨hpk2, hpkat⟩ := pubkeyParse_display idf pk hpk
  obtain ⟨hip2, hipat, hipcol⟩ := inetAddr_parse_display addr a hcol hip
  have hna : na = ⟨pk, ⟨a, p⟩⟩ := by
    cases h
    rfl
  subst hna
  have hrest : '@' ∉ a.display ++ ':' :: natToChars p := by
    intro hm
    rcases List.mem_append.1 hm with hmem | hmem
    · exact hipat hmem
    · rcases List.mem_cons.1 hmem with e | e
      · simp at e
      · exact (natToChars_not_mem_at p).1 e
  show NodeAddr.from_str (pk.display ++ '@' :: (a.display ++ ':' :: natToChars p)) = _
  unfold NodeAddr.from_str
  rw [splitOnChar_append '@' _ _ hpkat, splitOnChar_not_mem '@' _ hrest]
  simp only
  rw [splitOnChar_append ':' _ _ hipcol,
    splitOnChar_not_mem ':' _ (natToChars_not_mem_at p).2.1]
  simp only [parseU16_natToChars p hp]
  unfold NodeAddr.finishParse
  rw [hpk2, hip2]

/-- C4 (amended): every address string accepted by `NodeAddr::from_str`
round-trips: parsing the `Display` form of the parsed value yields the same
value again, so `format (parse s)` is a canonical form (lowercased pubkey
hex, explicit port) and a second parse/format cycle is idempotent.  The
original claim's universal "for every valid address string, parsing
succeeds" fails for IPv6 hosts (see the counterexample): the source splits
the part after `@` on `:` and rejects any host fragment containing a colon,
so the property is restricted to strings the parser accepts — which covers
IPv4 and Tor-v3 hosts. -/
theorem c4_parse_format_roundtrip (cs : List Char) (na : NodeAddr)
    (h : NodeAddr.from_str cs = .ok na) :
    NodeAddr.from_str na.display = .ok na := by
  unfold NodeAddr.from_str at h
  rcases hat : splitOnChar '@' cs with _ | ⟨idf, _ | ⟨inet, _ | ⟨x3, xs3⟩⟩⟩ <;>
    rw [hat] at h <;> try simp at h
  rcases hco : splitOnChar ':' inet with _ | ⟨addr, _ | ⟨port, _ | ⟨y3, ys3⟩⟩⟩ <;>
    rw [hco] at h <;> try simp at h
  · have hcol : ':' ∉ addr :=
      mem_splitOnChar_not_mem ':' inet addr (by rw [hco]; exact List.mem_cons_self _ _)
    exact finishParse_roundtrip idf addr LIGHTNING_P2P_DEFAULT_PORT na hcol (by norm_num [LIGHTNING_P2P_DEFAULT_PORT]) h
  · have hcol : ':' ∉ addr :=
      mem_splitOnChar_not_mem ':' inet addr (by rw [hco]; exact List.mem_cons_self _ _)
    rcases hpu : parseU16 port with _ | p <;> rw [hpu] at h <;> try simp at h
    exact finishParse_roundtrip idf addr p na hcol (parseU16_lt port p hpu) h

/-- A valid 66-hex-char compressed-pubkey fragment. -/
def pkB : List Char := '0' :: '3' :: List.replicate 64 'b'

/-- A full address string whose host fragment is the valid IPv6 literal
`::2`. -/
def c4input : List Char := pkB ++ '@' :: [':', ':', '2']

/-- C4, counterexample: `::2` is a well-formed IPv6 literal and `pkB` is
valid pubkey hex, so `c4input` is a valid address string per the spec's
textual format, yet `NodeAddr::from_str` rejects it: the split of the
fragment after `@` on `:` yields three fragments and the source errors out
before ever parsing the host.  Hence "for every valid address string s,
parsing succeeds" is false on the code. -/
theorem c4_counterexample :
    isIPv6Literal [':', ':', '2'] = true
    ∧ (pubkeyParse pkB).isSome = true
    ∧ NodeAddr.from_str c4input = .error errMsg := by
  refine ⟨by decide, by decide, by decide⟩

theorem c4_parse_format_roundtrip_witness :
    NodeAddr.from_str (pkB ++ '@' :: "1.2.3.4".data)
      = .ok ⟨⟨pkB.map hexVal⟩, ⟨.ipv4 1 2 3 4, 9735⟩⟩
    ∧ NodeAddr.from_str (NodeAddr.display ⟨⟨pkB.map hexVal⟩, ⟨.ipv4 1 2 3 4, 9735⟩⟩)
      = .ok ⟨⟨pkB.map hexVal⟩, ⟨.ipv4 1 2 3 4, 9735⟩⟩ :=
  ⟨by decide, c4_parse_format_roundtrip (pkB ++ '@' :: "1.2.3.4".data)
    ⟨⟨pkB.map hexVal⟩, ⟨.ipv4 1 2 3 4, 9735⟩⟩ (by decide)⟩

/-- A second valid 66-hex-char compressed-pubkey fragment. -/
def pkA : List Char := '0' :: '2' :: List.replicate 64 'a'

/-- A 56-character base32 onion name. -/
def tor56 : List Char := List.replicate 56 'x'

/-- C5: evaluation of `NodeAddr::from_str` over the three host kinds and the
port rules.  IPv4 hosts are accepted (with a valid `:port`, and with the
protocol's default port 9735 when the port is omitted), Tor-v3 onion hosts
are accepted, a non-numeric port and a port above 65535 are rejected — but
a host fragment that is a valid IPv6 literal is rejected with the format
error: the source splits the fragment after `@` on `:` before any host
parsing, so the colons of every IPv6 literal produce three or more
fragments and `from_str` errors out, contradicting the claim (and the
source's own error message, which advertises IPv6 support). -/
theorem c5_host_kinds_and_port :
    NodeAddr.from_str (pkA ++ '@' :: "1.2.3.4".data)
      = .ok ⟨⟨pkA.map hexVal⟩, ⟨.ipv4 1 2 3 4, 9735⟩⟩
    ∧ NodeAddr.from_str (pkA ++ '@' :: "1.2.3.4:8333".data)
      = .ok ⟨⟨pkA.map hexVal⟩, ⟨.ipv4 1 2 3 4, 8333⟩⟩
    ∧ NodeAddr.from_str (pkA ++ '@' :: (tor56 ++ onionSuffix))
      = .ok ⟨⟨pkA.map hexVal⟩, ⟨.tor tor56, 9735⟩⟩
    ∧ NodeAddr.from_str (pkA ++ '@' :: "1.2.3.4:x1".data) = .error errMsg
    ∧ NodeAddr.from_str (pkA ++ '@' :: "1.2.3.4:70000".data) = .error errMsg
    ∧ isIPv6Literal "a:b:c:d:1:2:3:4".data = true
    ∧ NodeAddr.from_str (pkA ++ '@' :: "a:b:c:d:1:2:3:4".data) = .error errMsg := by
  refine ⟨by decide, by decide, by decide, by decide, by decide, by decide, by decide⟩

/-- The four malformedness categories of the claim: no `@` present; invalid
public-key hex on the left of the `@`; an unparsable host — either standing
alone after the `@` or followed by a `:port` suffix (whether or not that
port is valid); a non-numeric (or out-of-range) port.  The `∉` side
conditions only pin down which fragment of the input each part names: every
fragment produced by the source's splits is free of its separator. -/
def MalformedAddr (cs : List Char) : Prop :=
  '@' ∉ cs
  ∨ (∃ idf inet, cs = idf ++ '@' :: inet ∧ '@' ∉ idf ∧ '@' ∉ inet
      ∧ pubkeyParse idf = none)
  ∨ (∃ idf addr, cs = idf ++ '@' :: addr ∧ '@' ∉ idf ∧ '@' ∉ addr ∧ ':' ∉ addr
      ∧ InetAddr.parse addr = none)
  ∨ (∃ idf addr port, cs = idf ++ '@' :: (addr ++ ':' :: port) ∧ '@' ∉ idf
      ∧ '@' ∉ addr ∧ '@' ∉ port ∧ ':' ∉ addr ∧ ':' ∉ port
      ∧ InetAddr.parse addr = none)
  ∨ (∃ idf addr port, cs = idf ++ '@' :: (addr ++ ':' :: port) ∧ '@' ∉ idf
      ∧ '@' ∉ addr ∧ '@' ∉ port ∧ ':' ∉ addr ∧ ':' ∉ port ∧ parseU16 port = none)

/-- C6: for every malformed address string — missing `@`, invalid public-key
hex, unparsable host (with or without a trailing `:port`), or non-numeric
port — `NodeAddr::from_str` fails with the address-format error.  Parsing is
a pure function of the input string in this embedding, as in the source: no
I/O is performed. -/
theorem c6_malformed_error (cs : List Char) (h : MalformedAddr cs) :
    NodeAddr.from_str cs = .error errMsg := by
  rcases h with h | ⟨idf, inet, he, hid, hin, hpk⟩
    | ⟨idf, addr, he, hid, had, hcol, hip⟩
    | ⟨idf, addr, port, he, hid, had, hpt, hca, hcp, hip⟩
    | ⟨idf, addr, port, he, hid, had, hpt, hca, hcp, hpu⟩
  · unfold NodeAddr.from_str
    rw [splitOnChar_not_mem '@' cs h]
  · subst he
    unfold NodeAddr.from_str
    rw [splitOnChar_append '@' _ _ hid, splitOnChar_not_mem '@' _ hin]
    simp only
    rcases hco : splitOnChar ':' inet with _ | ⟨addr, _ | ⟨port, _ | ⟨y3, ys3⟩⟩⟩ <;>
      try simp only
    · unfold NodeAddr.finishParse
      rw [hpk]
    · rcases hpu : parseU16 port with _ | p <;> try simp only
      unfold NodeAddr.finishParse
      rw [hpk]
  · subst he
    unfold NodeAddr.from_str
    rw [splitOnChar_append '@' _ _ hid, splitOnChar_not_mem '@' _ had]
    simp only
    rw [splitOnChar_not_mem ':' addr hcol]
    simp only
    unfold NodeAddr.finishParse
    rcases hpk : pubkeyParse idf with _ | pk <;> try simp only
    rw [hip]
  · subst he
    have hrest : '@' ∉ addr ++ ':' :: port := by
      intro hm
      rcases List.mem_append.1 hm with hmem | hmem
      · exact had hmem
      · rcases List.mem_cons.1 hmem with e | e
        · simp at e
        · exact hpt e
    unfold NodeAddr.from_str
    rw [splitOnChar_append '@' _ _ hid, splitOnChar_not_mem '@' _ hrest]
    simp only
    rw [splitOnChar_append ':' _ _ hca, splitOnChar_not_mem ':' _ hcp]
    simp only
    rcases hpu : parseU16 port with _ | p <;> try simp only
    unfold NodeAddr.finishParse
    rcases hpk : pubkeyParse idf with _ | pk <;> try simp only
    rw [hip]
  · subst he
    have hrest : '@' ∉ addr ++ ':' :: port := by
      intro hm
      rcases List.mem_append.1 hm with hmem | hmem
      · exact had hmem
      · rcases List.mem_cons.1 hmem with e | e
        · simp at e
        · exact hpt e
    unfold NodeAddr.from_str
    rw [splitOnChar_append '@' _ _ hid, splitOnChar_not_mem '@' _ hrest]
    simp only
    rw [splitOnChar_append ':' _ _ hca, splitOnChar_not_mem ':' _ hcp]
    simp only
    rw [hpu]

theorem c6_malformed_error_witness :
    NodeAddr.from_str "nokey".data = .error errMsg
    ∧ NodeAddr.from_str (pkA ++ '@' :: ("badhost".data ++ ':' :: "8080".data))
      = .error errMsg :=
  ⟨c6_malformed_error "nokey".data (Or.inl (by decide)),
    c6_malformed_error (pkA ++ '@' :: ("badhost".data ++ ':' :: "8080".data))
      (Or.inr (Or.inr (Or.inr (Or.inl
        ⟨pkA, "badhost".data, "8080".data, rfl, by decide, by decide, by decide,
          by decide, by decide, by decide⟩))))⟩
